import Mathlib

/-!
Verification development for a small in-memory TF-IDF search engine
(`main.py`).  The engine builds an inverted index over a corpus of news
documents grouped by entity (stock code) and date, deduplicating documents
by exact content, and answers free-text queries with a ranked list of
`(document id, score)` pairs scored by `tf * idf`.

The tokenizer (`preprocess`, backed by the external `jieba` library and a
stop-word file) is an external collaborator; following the specification it
is modelled as an injected function `tok : String → List String`.  Python
dictionaries (which preserve insertion order) are modelled as association
lists, Python floats as real numbers, `math.log` as `Real.log`, and
fallible evaluation (uncaught `StopIteration` / `ZeroDivisionError` /
`ValueError`) as `Option`.
-/

/-- Inverted index: token → postings list, in key-insertion order
(models the `defaultdict(list)` named `index`). -/
abbrev Index := List (String × List String)

/-- Document store: list of `(full_doc_id, content)` pairs, in processing
order (models the Python list named `documents`). -/
abbrev DocList := List (String × String)

/-- Corpus shape: entity → date → ordered list of raw document texts
(models the nested dicts loaded from the JSON files). -/
abbrev Corpus := List (String × List (String × List String))

/-- Whether the pattern is a prefix of the text, character by character
(used to detect a substring occurrence at the current position). -/
def matchesAt : List Char → List Char → Bool
  | [], _ => true
  | _ :: _, [] => false
  | a :: t, b :: s => a == b && matchesAt t s

/-- Count non-overlapping occurrences of the pattern `t` scanning left to
right; `skip` is the number of characters still covered by the previous
match.  This mirrors the left-to-right non-overlapping scan of Python's
`str.count`. -/
def countAux (t : List Char) : List Char → Nat → Nat
  | [], _ => 0
  | c :: rest, skip =>
    if skip > 0 then countAux t rest (skip - 1)
    else if matchesAt t (c :: rest) then 1 + countAux t rest (t.length - 1)
    else countAux t rest 0

/-- Python's `s.count(t)`: number of non-overlapping occurrences of the
substring `t` in `s`; for the empty pattern Python returns `len(s) + 1`. -/
def pyCount (s t : String) : Nat :=
  if t.data.length = 0 then s.data.length + 1
  else countAux t.data s.data 0

/-- Dictionary lookup on the inverted index (first entry with the key;
keys are unique by construction). -/
def lookupIndex : Index → String → Option (List String)
  | [], _ => none
  | (k, v) :: rest, t => if k = t then some v else lookupIndex rest t

/-- Python's `token in index` membership test on the index dict
(no insertion happens on a membership test, even for a `defaultdict`). -/
def ddContains (index : Index) (t : String) : Bool :=
  (lookupIndex index t).isSome

/-- A `defaultdict(list)` read access `index[token]`: returns the stored
postings list, or inserts a fresh empty list under the key and returns it
when the key is absent.  The possibly-updated dictionary is returned too. -/
def ddGet (index : Index) (t : String) : List String × Index :=
  match lookupIndex index t with
  | some ps => (ps, index)
  | none => ([], index ++ [(t, [])])

/-- `index[token].append(full_doc_id)` on the `defaultdict(list)`:
appends to the existing postings list, or creates the key (at the end of
the dictionary order) with a singleton postings list. -/
def postAppend : Index → String → String → Index
  | [], t, id => [(t, [id])]
  | (k, v) :: rest, t, id =>
    if k = t then (k, v ++ [id]) :: rest else (k, v) :: postAppend rest t id

/-- State of the index-building loop in `build_inverted_index`:
the inverted index, the document list, and the set of already seen
contents (`seen_docs`, kept as a list in insertion order). -/
structure BState where
  index : Index
  documents : DocList
  seen : List String

/-- Processing of one `(full_doc_id, content)` pair in the innermost loop
of `build_inverted_index`: skip if the content was seen, otherwise record
it as seen, append it to the document list, and append the id to the
postings list of every distinct token of the content (`for token in
set(tokens)`; Python set iteration order is unspecified, and only the
per-token postings content is observable, so the distinct tokens are taken
as `List.dedup`). -/
def step (tok : String → List String) (st : BState) (doc : String × String) : BState :=
  if doc.2 ∈ st.seen then st
  else
    { index := ((tok doc.2).dedup).foldl (fun ix tk => postAppend ix tk doc.1) st.index
      documents := st.documents ++ [doc]
      seen := st.seen ++ [doc.2] }

/-- The triple-nested loop of `build_inverted_index`: entities, then dates,
then enumerated news items; the composite document id is the f-string
`f"{stock_code}-{date}-{doc_id}"`. -/
def buildState (tok : String → List String) (data : Corpus) : BState :=
  data.foldl
    (fun st e =>
      e.2.foldl
        (fun st d =>
          (List.enum d.2).foldl
            (fun st ic => step tok st (e.1 ++ "-" ++ d.1 ++ "-" ++ toString ic.1, ic.2))
            st)
        st)
    ⟨[], [], []⟩

/-- `build_inverted_index(data)`: returns the inverted index and the
document list. -/
def build_inverted_index (tok : String → List String) (data : Corpus) :
    Index × DocList :=
  ((buildState tok data).index, (buildState tok data).documents)

/-- All raw document contents of a corpus, in iteration order. -/
def corpusContents (data : Corpus) : List String :=
  data.flatMap (fun e => e.2.flatMap (fun d => d.2))

/-- The corpus flattened to the `(full_doc_id, content)` pairs visited by
the nested loops of `build_inverted_index`, in visiting order. -/
def flatDocs (data : Corpus) : List (String × String) :=
  data.flatMap (fun e =>
    e.2.flatMap (fun d =>
      (List.enum d.2).map (fun ic => (e.1 ++ "-" ++ d.1 ++ "-" ++ toString ic.1, ic.2))))

/-- Linear scan of the document list for the first entry with the given
id: `next(doc for doc in documents if doc[0] == full_doc_id)`. -/
def lookupDoc : DocList → String → Option (String × String)
  | [], _ => none
  | d :: rest, id => if d.1 = id then some d else lookupDoc rest id

/-- Lookup in the score accumulator (`doc_scores` dictionary). -/
def lookupScore : List (String × ℝ) → String → Option ℝ
  | [], _ => none
  | p :: rest, id => if p.1 = id then some p.2 else lookupScore rest id

/-- Read access `doc_scores[id]` on the `defaultdict(float)`: the stored
score, or the default `0.0` for an absent key. -/
noncomputable def scoreVal (acc : List (String × ℝ)) (id : String) : ℝ :=
  (lookupScore acc id).getD 0

/-- `doc_scores[full_doc_id] += v` on the `defaultdict(float)`: add to the
stored value, or create the key (at the end of the insertion order) with
the default `0.0` plus `v`. -/
noncomputable def addScore : List (String × ℝ) → String → ℝ → List (String × ℝ)
  | [], id, v => [(id, v)]
  | p :: rest, id, v =>
    if p.1 = id then (p.1, p.2 + v) :: rest else p :: addScore rest id v

/-- Term-frequency computation for one posting inside `search`: retrieve
the document content by linear scan (`next(...)`, raising `StopIteration`
when no entry matches), count literal substring occurrences of the token,
and divide by the total token count of the content (raising
`ZeroDivisionError` when the content tokenizes to nothing). -/
noncomputable def docTF (tok : String → List String) (documents : DocList)
    (token id : String) : Option ℝ :=
  match lookupDoc documents id with
  | none => none
  | some doc =>
    if (tok doc.2).length = 0 then none
    else some ((pyCount doc.2 token : ℝ) / ((tok doc.2).length : ℝ))

/-- The inner loop of `search` over one matched token's postings list:
accumulate `tf * idf` into the score dictionary for each posting. -/
noncomputable def scoreFold (tok : String → List String) (documents : DocList)
    (token : String) (idf : ℝ) :
    List String → List (String × ℝ) → Option (List (String × ℝ))
  | [], acc => some acc
  | id :: rest, acc =>
    match docTF tok documents token id with
    | none => none
    | some tf => scoreFold tok documents token idf rest (addScore acc id (tf * idf))

/-- The outer loop of `search` over the query tokens.  For each token that
is a key of the index, `idf = log(len(documents) / len(index[token]))` is
computed (raising `ZeroDivisionError` when the postings list is empty and
`ValueError` from `log 0` when the document list is empty), then the
postings are scored.  The index is a `defaultdict`, so each `index[token]`
access goes through `ddGet` and the possibly-updated index is threaded
through; the accesses are guarded by the `token in index` test. -/
noncomputable def searchTokens (tok : String → List String) (documents : DocList) :
    List String → List (String × ℝ) → Index → Option (List (String × ℝ)) × Index
  | [], acc, index => (some acc, index)
  | token :: rest, acc, index =>
    if ddContains index token then
      let g1 := ddGet index token
      if g1.1.length = 0 then (none, g1.2)
      else if documents.length = 0 then (none, g1.2)
      else
        let idf := Real.log ((documents.length : ℝ) / (g1.1.length : ℝ))
        let g2 := ddGet g1.2 token
        match scoreFold tok documents token idf g2.1 acc with
        | none => (none, g2.2)
        | some acc2 => searchTokens tok documents rest acc2 g2.2
    else searchTokens tok documents rest acc index

/-- Stable descending insertion: place `x` before the first element whose
score is at most `x`'s, after all strictly greater ones; on equal scores
`x` comes first, preserving the original relative order. -/
noncomputable def insertDesc (x : String × ℝ) : List (String × ℝ) → List (String × ℝ)
  | [] => [x]
  | y :: ys => if y.2 ≤ x.2 then x :: y :: ys else y :: insertDesc x ys

/-- Stable sort by descending score, modelling
`sorted(doc_scores.items(), key=lambda x: x[1], reverse=True)` (Python's
`sorted` is stable, and `reverse=True` does not reorder equal keys). -/
noncomputable def sortDesc : List (String × ℝ) → List (String × ℝ)
  | [] => []
  | x :: xs => insertDesc x (sortDesc xs)

/-- `search(query, index, documents)`: tokenize the query, accumulate
`tf * idf` scores over the matching tokens' postings, sort by descending
score, and rebuild the `(id, doc_scores[id])` pairs.  The first component
is the result (`none` when an uncaught exception aborts the call), the
second the final state of the (mutable, `defaultdict`) index. -/
noncomputable def search (tok : String → List String) (query : String)
    (index : Index) (documents : DocList) :
    Option (List (String × ℝ)) × Index :=
  match searchTokens tok documents (tok query) [] index with
  | (none, ix) => (none, ix)
  | (some acc, ix) =>
    (some ((sortDesc acc).map (fun p => (p.1, scoreVal acc p.1))), ix)

/-- Term frequency as the specification words it: the count of literal
substring occurrences of the token in the document's raw content divided
by the total token count of that content (content retrieved from the
store by id). -/
noncomputable def specTF (tok : String → List String) (documents : DocList)
    (t id : String) : ℝ :=
  match lookupDoc documents id with
  | none => 0
  | some doc => (pyCount doc.2 t : ℝ) / ((tok doc.2).length : ℝ)

/-- Inverse document frequency `idf = ln (N / df)`. -/
noncomputable def specIdf (N df : Nat) : ℝ :=
  Real.log ((N : ℝ) / (df : ℝ))

/-- The score contribution the code actually accumulates for one query
token and one document id: the number of occurrences of the id in the
token's postings list times `tf * idf` (zero when the token is not a key
of the index). -/
noncomputable def codeContrib (tok : String → List String) (index : Index)
    (documents : DocList) (t id : String) : ℝ :=
  match lookupIndex index t with
  | none => 0
  | some ps =>
    (ps.count id : ℝ) * (specTF tok documents t id * specIdf documents.length ps.length)

/-- The score formula as the specification words it: the sum, over the
query tokens present as keys in the inverted index whose postings contain
the document id, of `tf * idf`. -/
noncomputable def specScore (tok : String → List String) (index : Index)
    (documents : DocList) (qtoks : List String) (id : String) : ℝ :=
  (qtoks.map (fun t =>
    match lookupIndex index t with
    | none => 0
    | some ps =>
      if id ∈ ps then specTF tok documents t id * specIdf documents.length ps.length
      else 0)).sum

/-- Untyped JSON-like values, as loaded from the corpus files: strings,
numbers, objects (string-keyed, insertion-ordered), and arrays.  Used to
model `build_inverted_index` on a possibly malformed corpus structure. -/
inductive PyVal where
  | pstr : String → PyVal
  | pnum : Int → PyVal
  | pdict : List (String × PyVal) → PyVal
  | plist : List PyVal → PyVal

/-- The specification's taxonomy name for the fatal error raised on a
malformed corpus structure.  The Python code surfaces it as an uncaught
built-in exception (`AttributeError` from `.items()` on a non-mapping,
`TypeError` from iterating a non-iterable or tokenizing a non-string);
either way index construction aborts and nothing is produced. -/
inductive LoadError where
  | malformedCorpus : LoadError
deriving DecidableEq

/-- `mapM` over `Except LoadError`, written recursively. -/
def mapME (f : α → Except LoadError β) : List α → Except LoadError (List β)
  | [] => .ok []
  | x :: xs =>
    match f x with
    | .error e => .error e
    | .ok y =>
      match mapME f xs with
      | .error e => .error e
      | .ok ys => .ok (y :: ys)

/-- Python's `.items()`: succeeds exactly on a mapping. -/
def itemsE : PyVal → Except LoadError (List (String × PyVal))
  | .pdict es => .ok es
  | _ => .error .malformedCorpus

/-- Iterating a news-list value with `enumerate`: an array must hold raw
text in every slot; a string is iterable in Python and yields its
characters; iterating a mapping yields its keys; a number is not iterable
and aborts the construction. -/
def iterNewsE : PyVal → Except LoadError (List String)
  | .plist xs =>
    mapME (fun v =>
      match v with
      | .pstr s => .ok s
      | _ => .error .malformedCorpus) xs
  | .pstr s => .ok (s.data.map (fun c => String.mk [c]))
  | .pdict es => .ok (es.map Prod.fst)
  | .pnum _ => .error .malformedCorpus

/-- Extract one entity's `date → news list` mapping from an untyped value. -/
def extractDates (sd : PyVal) : Except LoadError (List (String × List String)) :=
  match itemsE sd with
  | .error e => .error e
  | .ok ds =>
    mapME (fun q =>
      match iterNewsE q.2 with
      | .error e => .error e
      | .ok ns => .ok (q.1, ns)) ds

/-- Extract the whole typed corpus from an untyped value. -/
def extractCorpus (data : PyVal) : Except LoadError Corpus :=
  match itemsE data with
  | .error e => .error e
  | .ok es =>
    mapME (fun p =>
      match extractDates p.2 with
      | .error e => .error e
      | .ok ds => .ok (p.1, ds)) es

/-- `build_inverted_index` on an untyped corpus value: the structure is
consumed exactly as the nested loops do, and a malformed structure aborts
the construction with a `LoadError`. -/
def buildFromRaw (tok : String → List String) (data : PyVal) :
    Except LoadError (Index × DocList) :=
  match extractCorpus data with
  | .error e => .error e
  | .ok typed => .ok (build_inverted_index tok typed)

/-- Whether a value is a mapping. -/
def isPDict : PyVal → Bool
  | .pdict _ => true
  | _ => false

/-- Whether a value is non-iterable (in this value universe: a number). -/
def notIterable : PyVal → Bool
  | .pnum _ => true
  | _ => false

/-- A malformed corpus structure in the sense of the specification:
a non-mapping where the entity mapping is expected, a non-mapping where
an entity's date mapping is expected, or a non-iterable where a date's
news sequence is expected. -/
def Malformed (data : PyVal) : Prop :=
  isPDict data = false ∨
  (∃ es, data = .pdict es ∧ ∃ p ∈ es,
    isPDict p.2 = false ∨
    (∃ ds, p.2 = .pdict ds ∧ ∃ q ∈ ds, notIterable q.2 = true))

/-- Example tokenizer: one token per input string, except that the query
string "qq" tokenizes to the token "a" repeated twice. -/
def tokRep (s : String) : List String :=
  if s = "qq" then ["a", "a"] else [s]

/-- Example corpus with two one-token documents "a" and "b". -/
def dataRep : Corpus :=
  [("E", [("d", ["a", "b"])])]

/-- Example tokenizer splitting nothing: every string is its own token. -/
def tokId (s : String) : List String := [s]

/-- One-document corpus. -/
def dataOne : Corpus :=
  [("A", [("d", ["x"])])]

/-- The duplicate-content corpus of the dedup scenario: one entity, one
date, the same content twice. -/
def dataDup : Corpus :=
  [("A", [("d", ["x", "x"])])]

/-- Corpus on which two distinct documents receive the same composite id:
entity "A-B" date "C" and entity "A" date "B-C" both yield the id
"A-B-C-0". -/
def dataColl : Corpus :=
  [("A-B", [("C", ["x"])]), ("A", [("B-C", ["y"])])]

/-- Collision corpus with three documents: the two colliding ones both
contain the token "t", plus one more document so that `idf` is nonzero. -/
def dataColl3 : Corpus :=
  [("A-B", [("C", ["t x"])]), ("A", [("B-C", ["t y"]), ("Z", ["w"])])]

/-- Tokenizer for `dataColl3`: both colliding documents tokenize to the
single token "t", the third to "w", and the query "t" to itself. -/
def tokColl (s : String) : List String :=
  if s = "t x" then ["t"] else if s = "t y" then ["t"] else [s]

/-- The corpus of the boundary scenario: one entity, one date, two
documents both containing the query term. -/
def dataGreat : Corpus :=
  [("A", [("2020-01-01", ["cats are great", "dogs are great"])])]

/-- Degenerate tokenizer mapping every string to the single token
"great"; it satisfies the tokenization assumptions of the boundary
scenario. -/
def tokGreat (_ : String) : List String := ["great"]

/-- Invariant of the index-building loop: the seen set lists exactly the
stored contents in order; stored contents are pairwise distinct; every
postings list is nonempty, is a subsequence of the stored document ids,
and each of its ids belongs to a stored document whose content contains
the token. -/
def BuildInv (tok : String → List String) (st : BState) : Prop :=
  st.seen = st.documents.map Prod.snd ∧
  (st.documents.map Prod.snd).Nodup ∧
  (∀ t ps, lookupIndex st.index t = some ps →
    ps ≠ [] ∧ ps.Sublist (st.documents.map Prod.fst) ∧
    ∀ id ∈ ps, ∃ c, (id, c) ∈ st.documents ∧ t ∈ tok c)

/-- Exact characterization of the inverted index against the document
store: every token that is a key has as postings precisely the ids of the
stored documents whose content tokenizes to contain the token, one per
store entry and in store order; a token that is not a key occurs in no
stored document's tokenization.  Since the store holds one entry per
distinct content, each content contributes exactly one set of postings
entries — a skipped byte-identical duplicate contributes none. -/
def IndexChar (tok : String → List String) (index : Index)
    (documents : DocList) : Prop :=
  (∀ t ps, lookupIndex index t = some ps →
    ps = (documents.filter (fun d => decide (t ∈ tok d.2))).map Prod.fst) ∧
  (∀ t, lookupIndex index t = none → ∀ d ∈ documents, t ∉ tok d.2)

/-! ## Lemmas about the index association list -/

theorem lookup_postAppend_self (t id : String) :
    ∀ ix : Index, lookupIndex (postAppend ix t id) t
      = some ((lookupIndex ix t).getD [] ++ [id])
  | [] => by simp [postAppend, lookupIndex]
  | (k, v) :: rest => by
    by_cases h : k = t
    · simp [postAppend, lookupIndex, h]
    · simp only [postAppend, lookupIndex, if_neg h]
      exact lookup_postAppend_self t id rest

theorem lookup_postAppend_ne {t t' : String} (id : String) (h : t' ≠ t) :
    ∀ ix : Index, lookupIndex (postAppend ix t id) t' = lookupIndex ix t'
  | [] => by simp [postAppend, lookupIndex, Ne.symm h]
  | (k, v) :: rest => by
    by_cases hk : k = t
    · subst hk
      simp [postAppend, lookupIndex, Ne.symm h]
    · simp only [postAppend, lookupIndex, if_neg hk]
      by_cases hk' : k = t'
      · simp [hk']
      · simp only [if_neg hk']
        exact lookup_postAppend_ne id h rest

theorem lookup_tokfold (id : String) :
    ∀ (toks : List String) (ix : Index) (t : String), toks.Nodup →
      lookupIndex (toks.foldl (fun ix tk => postAppend ix tk id) ix) t
        = if t ∈ toks then some ((lookupIndex ix t).getD [] ++ [id])
          else lookupIndex ix t
  | [], ix, t, _ => by simp
  | tk :: rest, ix, t, hnd => by
    obtain ⟨hnotin, hrest⟩ := List.nodup_cons.mp hnd
    rw [List.foldl_cons]
    rw [lookup_tokfold id rest (postAppend ix tk id) t hrest]
    by_cases ht : t = tk
    · subst ht
      rw [if_neg hnotin, if_pos (List.mem_cons_self t rest)]
      exact lookup_postAppend_self t id ix
    · rw [lookup_postAppend_ne id ht ix]
      by_cases hmem : t ∈ rest
      · rw [if_pos hmem, if_pos (List.mem_cons_of_mem tk hmem)]
      · rw [if_neg hmem, if_neg (by simp [ht, hmem])]

/-! ## Flattening the nested build loops -/

theorem datesAux (tok : String → List String) (ename : String) :
    ∀ (dates : List (String × List String)) (st : BState),
      dates.foldl
        (fun st d =>
          (List.enum d.2).foldl
            (fun st ic => step tok st (ename ++ "-" ++ d.1 ++ "-" ++ toString ic.1, ic.2))
            st)
        st
      = (dates.flatMap (fun d =>
          (List.enum d.2).map
            (fun ic => (ename ++ "-" ++ d.1 ++ "-" ++ toString ic.1, ic.2)))).foldl
          (step tok) st
  | [], st => rfl
  | d :: rest, st => by
    rw [List.foldl_cons, List.flatMap_cons, List.foldl_append, List.foldl_map]
    exact datesAux tok ename rest _

theorem buildAux (tok : String → List String) :
    ∀ (data : Corpus) (st : BState),
      data.foldl
        (fun st e =>
          e.2.foldl
            (fun st d =>
              (List.enum d.2).foldl
                (fun st ic => step tok st (e.1 ++ "-" ++ d.1 ++ "-" ++ toString ic.1, ic.2))
                st)
            st)
        st
      = (flatDocs data).foldl (step tok) st
  | [], st => rfl
  | e :: rest, st => by
    rw [List.foldl_cons, flatDocs, List.flatMap_cons, List.foldl_append]
    rw [datesAux tok e.1 e.2 st]
    exact buildAux tok rest _

theorem buildState_eq_flat (tok : String → List String) (data : Corpus) :
    buildState tok data = (flatDocs data).foldl (step tok) ⟨[], [], []⟩ :=
  buildAux tok data _

/-! ## The build invariant -/

theorem buildInv_step (tok : String → List String) (st : BState)
    (doc : String × String) (h : BuildInv tok st) : BuildInv tok (step tok st doc) := by
  obtain ⟨hseen, hnd, hidx⟩ := h
  by_cases hmem : doc.2 ∈ st.seen
  · simpa [step, hmem] using ⟨hseen, hnd, hidx⟩
  · rw [step, if_neg hmem]
    refine ⟨?_, ?_, ?_⟩
    · simp [hseen]
    · simp only [List.map_append, List.map_cons, List.map_nil]
      rw [List.nodup_append]
      refine ⟨hnd, List.nodup_singleton _, ?_⟩
      intro c hc hc'
      simp only [List.mem_singleton] at hc'
      subst hc'
      exact hmem (hseen ▸ hc)
    · intro t ps hps
      simp only at hps
      rw [lookup_tokfold doc.1 ((tok doc.2).dedup) st.index t (List.nodup_dedup _)] at hps
      by_cases htk : t ∈ (tok doc.2).dedup
      · rw [if_pos htk] at hps
        injection hps with hps
        subst hps
        constructor
        · simp
        constructor
        · cases hlk : lookupIndex st.index t with
          | none =>
            simp only [hlk, Option.getD_none, List.nil_append, List.map_append]
            exact (List.nil_sublist _).append (List.Sublist.refl _)
          | some ops =>
            simp only [hlk, Option.getD_some, List.map_append]
            exact ((hidx t ops hlk).2.1).append (List.Sublist.refl _)
        · intro id hid
          cases hlk : lookupIndex st.index t with
          | none =>
            simp only [hlk, Option.getD_none, List.nil_append, List.mem_singleton] at hid
            subst hid
            exact ⟨doc.2, by simp, List.mem_dedup.mp htk⟩
          | some ops =>
            rw [hlk] at hid
            simp only [Option.getD_some, List.mem_append, List.mem_singleton] at hid
            rcases hid with hid | hid
            · obtain ⟨c, hc, htc⟩ := (hidx t ops hlk).2.2 id hid
              exact ⟨c, List.mem_append_left _ hc, htc⟩
            · subst hid
              exact ⟨doc.2, by simp, List.mem_dedup.mp htk⟩
      · rw [if_neg htk] at hps
        obtain ⟨hne, hsub, hsnd⟩ := hidx t ps hps
        refine ⟨hne, ?_, ?_⟩
        · rw [List.map_append]
          exact hsub.trans (List.sublist_append_left _ _)
        · intro id hid
          obtain ⟨c, hc, htc⟩ := hsnd id hid
          exact ⟨c, List.mem_append_left _ hc, htc⟩

theorem buildInv_foldl (tok : String → List String) :
    ∀ (l : List (String × String)) (st : BState), BuildInv tok st →
      BuildInv tok (l.foldl (step tok) st)
  | [], _, h => h
  | d :: rest, st, h =>
    buildInv_foldl tok rest (step tok st d) (buildInv_step tok st d h)

theorem buildInv_buildState (tok : String → List String) (data : Corpus) :
    BuildInv tok (buildState tok data) := by
  rw [buildState_eq_flat]
  exact buildInv_foldl tok (flatDocs data) ⟨[], [], []⟩
    ⟨rfl, List.nodup_nil, fun t ps hps => by simp [lookupIndex] at hps⟩

theorem seen_step (tok : String → List String) (st : BState)
    (doc : String × String) (c : String) :
    c ∈ (step tok st doc).seen ↔ c ∈ st.seen ∨ c = doc.2 := by
  by_cases hmem : doc.2 ∈ st.seen
  · rw [step, if_pos hmem]
    constructor
    · exact Or.inl
    · rintro (h | h)
      · exact h
      · exact h ▸ hmem
  · rw [step, if_neg hmem]
    simp

theorem seen_foldl (tok : String → List String) :
    ∀ (l : List (String × String)) (st : BState) (c : String),
      c ∈ (l.foldl (step tok) st).seen ↔ c ∈ st.seen ∨ c ∈ l.map Prod.snd
  | [], st, c => by simp
  | d :: rest, st, c => by
    rw [List.foldl_cons, seen_foldl tok rest (step tok st d) c, seen_step]
    simp only [List.map_cons, List.mem_cons]
    tauto

theorem flatDocs_map_snd (data : Corpus) :
    (flatDocs data).map Prod.snd = corpusContents data := by
  rw [flatDocs, corpusContents, List.map_flatMap]
  refine List.flatMap_congr ?_
  intro e _
  rw [List.map_flatMap]
  refine List.flatMap_congr ?_
  intro d _
  rw [List.map_map]
  exact List.enum_map_snd d.2

theorem mem_buildState_contents (tok : String → List String) (data : Corpus)
    (c : String) (h : c ∈ corpusContents data) :
    c ∈ (buildState tok data).documents.map Prod.snd := by
  have hseen := (buildInv_buildState tok data).1
  rw [← hseen, buildState_eq_flat]
  rw [seen_foldl tok (flatDocs data) ⟨[], [], []⟩ c]
  right
  rw [flatDocs_map_snd]
  exact h

/-! ## Lemmas about the score accumulator -/

theorem scoreVal_addScore_self (id : String) (v : ℝ) :
    ∀ acc, scoreVal (addScore acc id v) id = scoreVal acc id + v
  | [] => by simp [addScore, scoreVal, lookupScore]
  | p :: rest => by
    by_cases h : p.1 = id
    · simp [addScore, scoreVal, lookupScore, h]
    · simp only [addScore, if_neg h, scoreVal, lookupScore]
      exact scoreVal_addScore_self id v rest

theorem scoreVal_addScore_ne {id id' : String} (v : ℝ) (h : id' ≠ id) :
    ∀ acc, scoreVal (addScore acc id v) id' = scoreVal acc id'
  | [] => by simp [addScore, scoreVal, lookupScore, Ne.symm h]
  | p :: rest => by
    by_cases hp : p.1 = id
    · have hp' : p.1 ≠ id' := by rw [hp]; exact Ne.symm h
      simp [addScore, scoreVal, lookupScore, hp, hp', Ne.symm h]
    · simp only [addScore, if_neg hp, scoreVal, lookupScore]
      by_cases hp' : p.1 = id'
      · rw [if_pos hp', if_pos hp']
      · rw [if_neg hp', if_neg hp']
        exact scoreVal_addScore_ne v h rest

theorem addScore_map_fst (id : String) (v : ℝ) :
    ∀ acc : List (String × ℝ), (addScore acc id v).map Prod.fst
      = if id ∈ acc.map Prod.fst then acc.map Prod.fst
        else acc.map Prod.fst ++ [id]
  | [] => by simp [addScore]
  | p :: rest => by
    by_cases h : p.1 = id
    · simp [addScore, h]
    · simp only [addScore, if_neg h, List.map_cons]
      rw [addScore_map_fst id v rest]
      by_cases hm : id ∈ rest.map Prod.fst
      · rw [if_pos hm, if_pos (by simp [hm])]
      · rw [if_neg hm, if_neg (by simp [hm, Ne.symm h])]
        simp

theorem addScore_nodup {acc : List (String × ℝ)} (id : String) (v : ℝ)
    (h : (acc.map Prod.fst).Nodup) : ((addScore acc id v).map Prod.fst).Nodup := by
  rw [addScore_map_fst]
  by_cases hm : id ∈ acc.map Prod.fst
  · rwa [if_pos hm]
  · rw [if_neg hm, List.nodup_append]
    refine ⟨h, List.nodup_singleton _, ?_⟩
    intro c hc hc'
    simp only [List.mem_singleton] at hc'
    exact hm (hc' ▸ hc)

theorem lookupScore_mem {acc : List (String × ℝ)}
    (hnd : (acc.map Prod.fst).Nodup) {p : String × ℝ} (hp : p ∈ acc) :
    lookupScore acc p.1 = some p.2 := by
  induction acc with
  | nil => cases hp
  | cons q rest ih =>
    rcases List.mem_cons.mp hp with hq | hq
    · subst hq
      simp [lookupScore]
    · have hne : q.1 ≠ p.1 := by
        intro hcontra
        have : p.1 ∈ rest.map Prod.fst := List.mem_map_of_mem Prod.fst hq
        rw [← hcontra] at this
        exact (List.nodup_cons.mp (by simpa using hnd)).1 this
      rw [lookupScore, if_neg hne]
      exact ih (List.nodup_cons.mp (by simpa using hnd)).2 hq

theorem docTF_getD (tok : String → List String) (docs : DocList)
    (token id : String) :
    (docTF tok docs token id).getD 0 = specTF tok docs token id := by
  unfold docTF specTF
  cases lookupDoc docs id with
  | none => simp
  | some doc =>
    by_cases h : (tok doc.2).length = 0
    · simp [h]
    · simp [h]

/-! ## Lemmas about the scoring loops -/

theorem scoreFold_scoreVal (tok : String → List String) (docs : DocList)
    (token : String) (idf : ℝ) :
    ∀ (ps : List String) (acc acc' : List (String × ℝ)),
      scoreFold tok docs token idf ps acc = some acc' →
      ∀ id, scoreVal acc' id
        = scoreVal acc id + (ps.count id : ℝ) * (specTF tok docs token id * idf)
  | [], acc, acc', h => by
    intro id
    simp only [scoreFold] at h
    injection h with h
    subst h
    simp
  | pid :: rest, acc, acc', h => by
    intro id
    simp only [scoreFold] at h
    cases hdt : docTF tok docs token pid with
    | none => rw [hdt] at h; simp at h
    | some tf =>
      rw [hdt] at h
      simp only at h
      have hspec : specTF tok docs token pid = tf := by
        rw [← docTF_getD, hdt]; rfl
      have ih := scoreFold_scoreVal tok docs token idf rest
        (addScore acc pid (tf * idf)) acc' h id
      by_cases hid : id = pid
      · subst hid
        rw [ih, scoreVal_addScore_self, hspec, List.count_cons_self]
        push_cast
        ring
      · rw [ih, scoreVal_addScore_ne (tf * idf) hid,
          List.count_cons_of_ne hid]

theorem scoreFold_nodup (tok : String → List String) (docs : DocList)
    (token : String) (idf : ℝ) :
    ∀ (ps : List String) (acc acc' : List (String × ℝ)),
      scoreFold tok docs token idf ps acc = some acc' →
      (acc.map Prod.fst).Nodup → (acc'.map Prod.fst).Nodup
  | [], acc, acc', h => by
    simp only [scoreFold] at h
    injection h with h
    subst h
    exact id
  | pid :: rest, acc, acc', h => by
    simp only [scoreFold] at h
    cases hdt : docTF tok docs token pid with
    | none => rw [hdt] at h; simp at h
    | some tf =>
      rw [hdt] at h
      simp only at h
      intro hnd
      exact scoreFold_nodup tok docs token idf rest _ acc' h
        (addScore_nodup pid (tf * idf) hnd)

theorem searchTokens_snd (tok : String → List String) (docs : DocList) :
    ∀ (toks : List String) (acc : List (String × ℝ)) (index : Index),
      (searchTokens tok docs toks acc index).2 = index
  | [], acc, index => rfl
  | token :: rest, acc, index => by
    unfold searchTokens
    by_cases h : ddContains index token = true
    · rw [if_pos h]
      rw [ddContains] at h
      obtain ⟨ps, hps⟩ := Option.isSome_iff_exists.mp h
      simp only [ddGet, hps]
      by_cases h1 : ps.length = 0
      · rw [if_pos h1]
      · rw [if_neg h1]
        by_cases h2 : docs.length = 0
        · rw [if_pos h2]
        · rw [if_neg h2]
          cases hsf : scoreFold tok docs token
              (Real.log ((docs.length : ℝ) / (ps.length : ℝ))) ps acc with
          | none => simp [hsf]
          | some acc2 =>
            simp only [hsf]
            exact searchTokens_snd tok docs rest acc2 index
    · rw [if_neg h]
      exact searchTokens_snd tok docs rest acc index

theorem searchTokens_master (tok : String → List String) (docs : DocList) :
    ∀ (toks : List String) (acc : List (String × ℝ)) (index : Index)
      (acc' : List (String × ℝ)),
      (searchTokens tok docs toks acc index).1 = some acc' →
      (∀ id, scoreVal acc' id = scoreVal acc id
          + (toks.map (fun t => codeContrib tok index docs t id)).sum) ∧
      (∀ t ∈ toks, ∀ ps, lookupIndex index t = some ps → ps ≠ [] ∧ docs ≠ []) ∧
      ((acc.map Prod.fst).Nodup → (acc'.map Prod.fst).Nodup)
  | [], acc, index, acc', h => by
    simp only [searchTokens] at h
    injection h with h
    subst h
    exact ⟨fun id => by simp, fun t ht => absurd ht (List.not_mem_nil t), id⟩
  | token :: rest, acc, index, acc', h => by
    unfold searchTokens at h
    by_cases hc : ddContains index token = true
    · rw [if_pos hc] at h
      rw [ddContains] at hc
      obtain ⟨ps, hps⟩ := Option.isSome_iff_exists.mp hc
      simp only [ddGet, hps] at h
      by_cases h1 : ps.length = 0
      · rw [if_pos h1] at h; simp at h
      · rw [if_neg h1] at h
        by_cases h2 : docs.length = 0
        · rw [if_pos h2] at h; simp at h
        · rw [if_neg h2] at h
          cases hsf : scoreFold tok docs token
              (Real.log ((docs.length : ℝ) / (ps.length : ℝ))) ps acc with
          | none => rw [hsf] at h; simp at h
          | some acc2 =>
            rw [hsf] at h
            simp only at h
            obtain ⟨ihval, ihcond, ihnd⟩ :=
              searchTokens_master tok docs rest acc2 index acc' h
            refine ⟨?_, ?_, ?_⟩
            · intro id
              rw [ihval id,
                scoreFold_scoreVal tok docs token _ ps acc acc2 hsf id]
              simp only [List.map_cons, List.sum_cons, codeContrib, hps, specIdf]
              ring
            · intro t ht ps' hps'
              rcases List.mem_cons.mp ht with hteq | htr
              · subst hteq
                rw [hps] at hps'
                injection hps' with hps'
                subst hps'
                exact ⟨fun hnil => h1 (by rw [hnil]; rfl),
                  fun hnil => h2 (by rw [hnil]; rfl)⟩
              · exact ihcond t htr ps' hps'
            · intro hnd
              exact ihnd (scoreFold_nodup tok docs token _ ps acc acc2 hsf hnd)
    · rw [if_neg hc] at h
      rw [ddContains] at hc
      have hnone : lookupIndex index token = none :=
        Option.not_isSome_iff_eq_none.mp (by simpa using hc)
      obtain ⟨ihval, ihcond, ihnd⟩ :=
        searchTokens_master tok docs rest acc index acc' h
      refine ⟨?_, ?_, ihnd⟩
      · intro id
        rw [ihval id]
        simp [codeContrib, hnone]
      · intro t ht ps' hps'
        rcases List.mem_cons.mp ht with hteq | htr
        · subst hteq
          rw [hnone] at hps'
          cases hps'
        · exact ihcond t htr ps' hps'

/-! ## Lemmas about the stable descending sort -/

theorem insertDesc_perm (x : String × ℝ) :
    ∀ l : List (String × ℝ), (insertDesc x l).Perm (x :: l)
  | [] => List.Perm.refl _
  | y :: ys => by
    rw [insertDesc]
    by_cases h : y.2 ≤ x.2
    · rw [if_pos h]
    · rw [if_neg h]
      exact ((insertDesc_perm x ys).cons y).trans (List.Perm.swap x y ys)

theorem sortDesc_perm : ∀ l : List (String × ℝ), (sortDesc l).Perm l
  | [] => List.Perm.refl _
  | x :: xs =>
    ((insertDesc_perm x (sortDesc xs)).trans ((sortDesc_perm xs).cons x))

theorem insertDesc_sorted (x : String × ℝ) :
    ∀ {l : List (String × ℝ)},
      l.Pairwise (fun a b => b.2 ≤ a.2) →
      (insertDesc x l).Pairwise (fun a b => b.2 ≤ a.2)
  | [], _ => List.pairwise_singleton _ _
  | y :: ys, h => by
    rw [insertDesc]
    obtain ⟨hy, hys⟩ := List.pairwise_cons.mp h
    by_cases hif : y.2 ≤ x.2
    · rw [if_pos hif]
      refine List.pairwise_cons.mpr ⟨?_, h⟩
      intro z hz
      rcases List.mem_cons.mp hz with hz | hz
      · exact hz ▸ hif
      · exact le_trans (hy z hz) hif
    · rw [if_neg hif]
      refine List.pairwise_cons.mpr ⟨?_, insertDesc_sorted x hys⟩
      intro z hz
      have hz' := (insertDesc_perm x ys).mem_iff.mp hz
      rcases List.mem_cons.mp hz' with hz' | hz'
      · subst hz'
        exact le_of_lt (lt_of_not_le hif)
      · exact hy z hz'

theorem sortDesc_sorted :
    ∀ l : List (String × ℝ), (sortDesc l).Pairwise (fun a b => b.2 ≤ a.2)
  | [] => List.Pairwise.nil
  | x :: xs => insertDesc_sorted x (sortDesc_sorted xs)

theorem sublist_insertDesc (x : String × ℝ) :
    ∀ l : List (String × ℝ), l.Sublist (insertDesc x l)
  | [] => List.nil_sublist _
  | y :: ys => by
    rw [insertDesc]
    by_cases h : y.2 ≤ x.2
    · rw [if_pos h]
      exact List.sublist_cons_self x _
    · rw [if_neg h]
      exact List.cons_sublist_cons.mpr (sublist_insertDesc x ys)

theorem insertDesc_pair {x b : String × ℝ} (hble : b.2 ≤ x.2) :
    ∀ {l : List (String × ℝ)}, b ∈ l → [x, b].Sublist (insertDesc x l)
  | [], h => absurd h (List.not_mem_nil b)
  | y :: ys, h => by
    rw [insertDesc]
    by_cases hif : y.2 ≤ x.2
    · rw [if_pos hif]
      exact List.cons_sublist_cons.mpr (List.singleton_sublist.mpr h)
    · rw [if_neg hif]
      rcases List.mem_cons.mp h with hb | hb
      · exact absurd (hb ▸ hble) hif
      · exact (insertDesc_pair hble hb).cons y

theorem sortDesc_stable :
    ∀ {l : List (String × ℝ)} {a b : String × ℝ},
      [a, b].Sublist l → a.2 = b.2 → [a, b].Sublist (sortDesc l)
  | [], a, b, h, _ => absurd (h.length_le) (by simp)
  | c :: l, a, b, h, heq => by
    rw [sortDesc]
    cases h with
    | cons _ h' =>
      exact (sortDesc_stable h' heq).trans (sublist_insertDesc c (sortDesc l))
    | cons₂ _ h' =>
      exact insertDesc_pair (le_of_eq heq.symm)
        ((sortDesc_perm l).mem_iff.mpr (List.singleton_sublist.mp h'))

/-! ## Characterization of a successful search call -/

theorem map_self_of_eq {l : List (String × ℝ)} {f : String × ℝ → String × ℝ}
    (h : ∀ x ∈ l, f x = x) : l.map f = l := by
  induction l with
  | nil => rfl
  | cons x xs ih =>
    rw [List.map_cons, h x (List.mem_cons_self x xs),
      ih (fun y hy => h y (List.mem_cons_of_mem x hy))]

theorem search_some {tok : String → List String} {q : String} {index : Index}
    {docs : DocList} {r : List (String × ℝ)} {ix : Index}
    (h : search tok q index docs = (some r, ix)) :
    ix = index ∧ ∃ acc,
      (searchTokens tok docs (tok q) [] index).1 = some acc ∧
      r = sortDesc acc ∧ (acc.map Prod.fst).Nodup ∧
      (∀ p ∈ r, p.2
        = ((tok q).map (fun t => codeContrib tok index docs t p.1)).sum) ∧
      (∀ t ∈ tok q, ∀ ps, lookupIndex index t = some ps → ps ≠ [] ∧ docs ≠ []) := by
  have hsnd := searchTokens_snd tok docs (tok q) [] index
  unfold search at h
  cases hst : searchTokens tok docs (tok q) [] index with
  | mk o ix0 =>
    rw [hst] at h hsnd
    cases o with
    | none => simp at h
    | some acc =>
      simp only at h hsnd
      injection h with h1 h2
      subst h2
      have hfst : (searchTokens tok docs (tok q) [] index).1 = some acc := by
        rw [hst]
      obtain ⟨hval, hcond, hnd⟩ :=
        searchTokens_master tok docs (tok q) [] index acc hfst
      have hacc_nd : (acc.map Prod.fst).Nodup := hnd (by simp)
      have hmem_eq : ∀ p ∈ sortDesc acc, (p.1, scoreVal acc p.1) = p := by
        intro p hp
        have hpacc : p ∈ acc := (sortDesc_perm acc).mem_iff.mp hp
        rw [scoreVal, lookupScore_mem hacc_nd hpacc]
        rfl
      injection h1 with h1
      have hr : r = sortDesc acc := by
        rw [← h1]
        exact map_self_of_eq hmem_eq
      refine ⟨hsnd, acc, rfl, hr, hacc_nd, ?_, ?_⟩
      · intro p hp
        have hpacc : p ∈ acc := (sortDesc_perm acc).mem_iff.mp (hr ▸ hp)
        have := hval p.1
        rw [scoreVal, lookupScore_mem hacc_nd hpacc] at this
        simpa [scoreVal, lookupScore] using this
      · exact hcond

/-! ## The postings-contribution characterization of the index -/

theorem indexChar_step (tok : String → List String) (st : BState)
    (doc : String × String) (h : IndexChar tok st.index st.documents) :
    IndexChar tok (step tok st doc).index (step tok st doc).documents := by
  by_cases hmem : doc.2 ∈ st.seen
  · simpa [step, hmem] using h
  · have hidx : (step tok st doc).index
        = ((tok doc.2).dedup).foldl (fun ix tk => postAppend ix tk doc.1) st.index := by
      rw [step, if_neg hmem]
    have hdocs : (step tok st doc).documents = st.documents ++ [doc] := by
      rw [step, if_neg hmem]
    obtain ⟨hsome, hnone⟩ := h
    rw [IndexChar, hidx, hdocs]
    constructor
    · intro t ps hps
      rw [lookup_tokfold doc.1 _ _ _ (List.nodup_dedup _)] at hps
      rw [List.filter_append, List.map_append]
      by_cases htk : t ∈ (tok doc.2).dedup
      · rw [if_pos htk] at hps
        injection hps with hps
        subst hps
        have htc : decide (t ∈ tok doc.2) = true :=
          decide_eq_true (List.mem_dedup.mp htk)
        have hone : ([doc].filter (fun d => decide (t ∈ tok d.2))).map Prod.fst
            = [doc.1] := by
          simp [List.filter, htc]
        rw [hone]
        cases hlk : lookupIndex st.index t with
        | none =>
          have hfil : st.documents.filter (fun d => decide (t ∈ tok d.2)) = [] := by
            refine List.filter_eq_nil_iff.mpr ?_
            intro d hd
            simp only [decide_eq_true_eq]
            exact hnone t hlk d hd
          simp [hlk, hfil]
        | some ops =>
          simp only [Option.getD_some]
          rw [hsome t ops hlk]
      · rw [if_neg htk] at hps
        have htc : decide (t ∈ tok doc.2) = false := by
          simp only [decide_eq_false_iff_not]
          exact fun hc => htk (List.mem_dedup.mpr hc)
        have hzero : ([doc].filter (fun d => decide (t ∈ tok d.2))).map Prod.fst
            = [] := by
          simp [List.filter, htc]
        rw [hzero, List.append_nil]
        exact hsome t ps hps
    · intro t ht d hd
      rw [lookup_tokfold doc.1 _ _ _ (List.nodup_dedup _)] at ht
      by_cases htk : t ∈ (tok doc.2).dedup
      · rw [if_pos htk] at ht
        cases ht
      · rw [if_neg htk] at ht
        rcases List.mem_append.mp hd with hd | hd
        · exact hnone t ht d hd
        · simp only [List.mem_singleton] at hd
          subst hd
          exact fun hc => htk (List.mem_dedup.mpr hc)

theorem indexChar_foldl (tok : String → List String) :
    ∀ (l : List (String × String)) (st : BState),
      IndexChar tok st.index st.documents →
      IndexChar tok (l.foldl (step tok) st).index (l.foldl (step tok) st).documents
  | [], _, h => h
  | d :: rest, st, h =>
    indexChar_foldl tok rest (step tok st d) (indexChar_step tok st d h)

theorem indexChar_buildState (tok : String → List String) (data : Corpus) :
    IndexChar tok (buildState tok data).index (buildState tok data).documents := by
  rw [buildState_eq_flat]
  refine indexChar_foldl tok (flatDocs data) ⟨[], [], []⟩ ⟨?_, ?_⟩
  · intro t ps hps
    simp [lookupIndex] at hps
  · intro t _ d hd
    exact absurd hd (List.not_mem_nil d)

/-! ## Evaluation helpers for concrete runs -/

theorem searchTokens_nil (tok : String → List String) (docs : DocList)
    (acc : List (String × ℝ)) (index : Index) :
    searchTokens tok docs [] acc index = (some acc, index) := rfl

theorem searchTokens_cons_hit {tok : String → List String} {docs : DocList}
    {token : String} {rest : List String} {acc acc1 : List (String × ℝ)}
    {index : Index} {ps : List String}
    (hps : lookupIndex index token = some ps)
    (hne : ps.length ≠ 0) (hd : docs.length ≠ 0)
    (hsf : scoreFold tok docs token
      (Real.log ((docs.length : ℝ) / (ps.length : ℝ))) ps acc = some acc1) :
    searchTokens tok docs (token :: rest) acc index
      = searchTokens tok docs rest acc1 index := by
  conv_lhs => rw [searchTokens]
  rw [if_pos (show ddContains index token = true by simp [ddContains, hps])]
  simp only [ddGet, hps]
  rw [if_neg hne, if_neg hd, hsf]

theorem searchTokens_no_match (tok : String → List String) (docs : DocList) :
    ∀ (toks : List String) (acc : List (String × ℝ)) (index : Index),
      (∀ t ∈ toks, lookupIndex index t = none) →
      searchTokens tok docs toks acc index = (some acc, index)
  | [], acc, index, _ => rfl
  | token :: rest, acc, index, h => by
    unfold searchTokens
    rw [if_neg (by simp [ddContains, h token (List.mem_cons_self token rest)])]
    exact searchTokens_no_match tok docs rest acc index
      (fun t ht => h t (List.mem_cons_of_mem token ht))

theorem scoreFold_nil (tok : String → List String) (docs : DocList)
    (token : String) (idf : ℝ) (acc : List (String × ℝ)) :
    scoreFold tok docs token idf [] acc = some acc := rfl

theorem scoreFold_cons {tok : String → List String} {docs : DocList}
    {token id : String} {tf : ℝ} (idf : ℝ) {rest : List String}
    {acc : List (String × ℝ)}
    (hdt : docTF tok docs token id = some tf) :
    scoreFold tok docs token idf (id :: rest) acc
      = scoreFold tok docs token idf rest (addScore acc id (tf * idf)) := by
  conv_lhs => rw [scoreFold]
  rw [hdt]

theorem docTF_eval {tok : String → List String} {docs : DocList}
    {token id id' c : String}
    (hld : lookupDoc docs id = some (id', c))
    (hlen : (tok c).length ≠ 0) :
    docTF tok docs token id
      = some ((pyCount c token : ℝ) / ((tok c).length : ℝ)) := by
  unfold docTF
  rw [hld]
  simp [hlen]

theorem buildRep_eval : build_inverted_index tokRep dataRep
    = ([("a", ["E-d-0"]), ("b", ["E-d-1"])], [("E-d-0", "a"), ("E-d-1", "b")]) := by
  decide

theorem searchRep_eval : search tokRep "qq" [("a", ["E-d-0"]), ("b", ["E-d-1"])]
    [("E-d-0", "a"), ("E-d-1", "b")]
    = (some [("E-d-0", Real.log 2 + Real.log 2)], [("a", ["E-d-0"]), ("b", ["E-d-1"])]) := by
  simp [search, searchTokens, ddContains, ddGet, lookupIndex, scoreFold, docTF,
    lookupDoc, addScore, sortDesc, insertDesc, scoreVal, lookupScore, tokRep]
  norm_num [pyCount, countAux, matchesAt]

theorem searchOne_eval : search tokId "x" [("x", ["A-d-0"])] [("A-d-0", "x")]
    = (some [("A-d-0", 0)], [("x", ["A-d-0"])]) := by
  simp [search, searchTokens, ddContains, ddGet, lookupIndex, scoreFold, docTF,
    lookupDoc, addScore, sortDesc, insertDesc, scoreVal, lookupScore, tokId,
    Real.log_one, pyCount, countAux, matchesAt]

theorem searchColl3_eval : search tokColl "t"
    [("t", ["A-B-C-0", "A-B-C-0"]), ("w", ["A-Z-0"])]
    [("A-B-C-0", "t x"), ("A-B-C-0", "t y"), ("A-Z-0", "w")]
    = (some [("A-B-C-0", Real.log ((3 : ℝ) / 2) + Real.log ((3 : ℝ) / 2))],
       [("t", ["A-B-C-0", "A-B-C-0"]), ("w", ["A-Z-0"])]) := by
  simp [search, searchTokens, ddContains, ddGet, lookupIndex, scoreFold, docTF,
    lookupDoc, addScore, sortDesc, insertDesc, scoreVal, lookupScore, tokColl,
    show pyCount ("t x") ("t") = 1 from by decide]

theorem buildGreat_docs (tok : String → List String) :
    (build_inverted_index tok dataGreat).2
      = [("A-2020-01-01-0", "cats are great"), ("A-2020-01-01-1", "dogs are great")] := by
  have hflat : flatDocs dataGreat
      = [("A-2020-01-01-0", "cats are great"), ("A-2020-01-01-1", "dogs are great")] := by
    decide
  simp [build_inverted_index, buildState_eq_flat, hflat, step]

theorem buildGreat_lookup (tok : String → List String)
    (h0 : "great" ∈ tok "cats are great") (h1 : "great" ∈ tok "dogs are great") :
    lookupIndex (build_inverted_index tok dataGreat).1 "great"
      = some ["A-2020-01-01-0", "A-2020-01-01-1"] := by
  have hflat : flatDocs dataGreat
      = [("A-2020-01-01-0", "cats are great"), ("A-2020-01-01-1", "dogs are great")] := by
    decide
  have hst1 : step tok ⟨[], [], []⟩ ("A-2020-01-01-0", "cats are great")
      = ⟨((tok "cats are great").dedup).foldl
          (fun ix tk => postAppend ix tk ("A-2020-01-01-0")) [],
         [("A-2020-01-01-0", "cats are great")], ["cats are great"]⟩ := by
    simp [step]
  simp only [build_inverted_index, buildState_eq_flat, hflat, List.foldl_cons,
    List.foldl_nil, hst1]
  rw [step, if_neg (by simp)]
  simp only
  rw [lookup_tokfold "A-2020-01-01-1" _ _ _ (List.nodup_dedup _)]
  rw [if_pos (List.mem_dedup.mpr h1)]
  rw [lookup_tokfold "A-2020-01-01-0" _ _ _ (List.nodup_dedup _)]
  rw [if_pos (List.mem_dedup.mpr h0)]
  simp [lookupIndex]

theorem searchGreat_eval (tok : String → List String)
    (hq : tok "great" = ["great"])
    (h0 : "great" ∈ tok "cats are great") (h1 : "great" ∈ tok "dogs are great") :
    search tok "great" (build_inverted_index tok dataGreat).1
      (build_inverted_index tok dataGreat).2
      = (some [("A-2020-01-01-0", 0), ("A-2020-01-01-1", 0)],
         (build_inverted_index tok dataGreat).1) := by
  have hdocs := buildGreat_docs tok
  have hlk := buildGreat_lookup tok h0 h1
  have hlen0 : (tok "cats are great").length ≠ 0 := by
    intro hl
    exact List.ne_nil_of_mem h0 (List.length_eq_zero.mp hl)
  have hlen1 : (tok "dogs are great").length ≠ 0 := by
    intro hl
    exact List.ne_nil_of_mem h1 (List.length_eq_zero.mp hl)
  have hld0 : lookupDoc [("A-2020-01-01-0", "cats are great"),
      ("A-2020-01-01-1", "dogs are great")] ("A-2020-01-01-0")
      = some (("A-2020-01-01-0"), ("cats are great")) := by
    simp [lookupDoc]
  have hld1 : lookupDoc [("A-2020-01-01-0", "cats are great"),
      ("A-2020-01-01-1", "dogs are great")] ("A-2020-01-01-1")
      = some (("A-2020-01-01-1"), ("dogs are great")) := by
    simp [lookupDoc]
  have hdt0 : docTF tok (build_inverted_index tok dataGreat).2 "great" "A-2020-01-01-0"
      = some ((pyCount "cats are great" "great" : ℝ)
          / ((tok "cats are great").length : ℝ)) := by
    rw [hdocs]
    exact docTF_eval hld0 hlen0
  have hdt1 : docTF tok (build_inverted_index tok dataGreat).2 "great" "A-2020-01-01-1"
      = some ((pyCount "dogs are great" "great" : ℝ)
          / ((tok "dogs are great").length : ℝ)) := by
    rw [hdocs]
    exact docTF_eval hld1 hlen1
  have hzero : Real.log
      (((build_inverted_index tok dataGreat).2.length : ℝ)
        / ((["A-2020-01-01-0", "A-2020-01-01-1"] : List String).length : ℝ)) = 0 := by
    rw [hdocs]
    norm_num
  have hsf : scoreFold tok (build_inverted_index tok dataGreat).2 "great"
      (Real.log (((build_inverted_index tok dataGreat).2.length : ℝ)
        / ((["A-2020-01-01-0", "A-2020-01-01-1"] : List String).length : ℝ)))
      ["A-2020-01-01-0", "A-2020-01-01-1"] []
      = some [("A-2020-01-01-0", 0), ("A-2020-01-01-1", 0)] := by
    rw [scoreFold_cons _ hdt0, scoreFold_cons _ hdt1, scoreFold_nil, hzero]
    simp [addScore]
  have hst : searchTokens tok (build_inverted_index tok dataGreat).2 (tok "great") []
      (build_inverted_index tok dataGreat).1
      = (some [("A-2020-01-01-0", 0), ("A-2020-01-01-1", 0)],
         (build_inverted_index tok dataGreat).1) := by
    rw [hq, searchTokens_cons_hit hlk (by simp) (by rw [hdocs]; simp) hsf,
      searchTokens_nil]
  rw [search, hst]
  simp [sortDesc, insertDesc, scoreVal, lookupScore]

/-! ## Empty and non-matching queries -/

theorem search_of_no_match (tok : String → List String) (q : String)
    (index : Index) (docs : DocList)
    (h : ∀ t ∈ tok q, lookupIndex index t = none) :
    search tok q index docs = (some [], index) := by
  rw [search, searchTokens_no_match tok docs (tok q) [] index h]
  rfl

theorem map_congr_on {α β : Type _} {l : List α} {f g : α → β}
    (h : ∀ x ∈ l, f x = g x) : l.map f = l.map g := by
  induction l with
  | nil => rfl
  | cons x xs ih =>
    rw [List.map_cons, List.map_cons, h x (List.mem_cons_self x xs),
      ih (fun y hy => h y (List.mem_cons_of_mem x hy))]

/-! ## Lookup of a document by id when ids are unique -/

theorem lookupDoc_mem {docs : DocList}
    (hnd : (docs.map Prod.fst).Nodup) {p : String × String} (hp : p ∈ docs) :
    lookupDoc docs p.1 = some p := by
  induction docs with
  | nil => cases hp
  | cons q rest ih =>
    rcases List.mem_cons.mp hp with hq | hq
    · subst hq
      simp [lookupDoc]
    · have hne : q.1 ≠ p.1 := by
        intro hcontra
        have : p.1 ∈ rest.map Prod.fst := List.mem_map_of_mem Prod.fst hq
        rw [← hcontra] at this
        exact (List.nodup_cons.mp (by simpa using hnd)).1 this
      rw [lookupDoc, if_neg hne]
      exact ih (List.nodup_cons.mp (by simpa using hnd)).2 hq

/-! ## Malformed corpus structures abort the untyped build -/

theorem mapME_ok_mem {α β : Type _} {f : α → Except LoadError β} :
    ∀ {l : List α} {ys : List β}, mapME f l = .ok ys →
      ∀ x ∈ l, ∃ y, f x = .ok y
  | [], _, _, x, hx => absurd hx (List.not_mem_nil x)
  | a :: l, ys, h, x, hx => by
    rw [mapME] at h
    cases hfa : f a with
    | error e => rw [hfa] at h; cases h
    | ok y =>
      rw [hfa] at h
      cases hml : mapME f l with
      | error e => rw [hml] at h; cases h
      | ok ys' =>
        rcases List.mem_cons.mp hx with hx | hx
        · exact ⟨y, hx ▸ hfa⟩
        · exact mapME_ok_mem hml x hx

theorem itemsE_ok {v : PyVal} {es : List (String × PyVal)}
    (h : itemsE v = .ok es) : v = .pdict es := by
  cases v with
  | pdict es' => rw [itemsE] at h; injection h with h; rw [h]
  | pstr s => cases h
  | pnum n => cases h
  | plist xs => cases h

theorem extractDates_ok_dict {sd : PyVal}
    {ds : List (String × List String)} (h : extractDates sd = .ok ds) :
    isPDict sd = true := by
  rw [extractDates] at h
  cases hie : itemsE sd with
  | error e => rw [hie] at h; cases h
  | ok es => rw [itemsE_ok hie]; rfl

theorem extractDates_ok_news {sd : PyVal} {ds : List (String × List String)}
    (h : extractDates sd = .ok ds) {es : List (String × PyVal)}
    (hsd : sd = .pdict es) : ∀ q ∈ es, notIterable q.2 = false := by
  intro q hq
  rw [extractDates, hsd] at h
  rw [show itemsE (.pdict es) = .ok es from rfl] at h
  obtain ⟨y, hy⟩ := mapME_ok_mem h q hq
  cases hin : iterNewsE q.2 with
  | error e => rw [hin] at hy; cases hy
  | ok ns =>
    cases hq2 : q.2 with
    | pnum n => rw [hq2] at hin; cases hin
    | pstr s => rfl
    | pdict es2 => rfl
    | plist xs => rfl

theorem buildFromRaw_malformed (tok : String → List String) (data : PyVal)
    (h : Malformed data) : buildFromRaw tok data = .error .malformedCorpus := by
  cases hres : buildFromRaw tok data with
  | error e => cases e; rfl
  | ok r =>
    exfalso
    rw [buildFromRaw] at hres
    cases hec : extractCorpus data with
    | error e => rw [hec] at hres; cases hres
    | ok typed =>
      rw [extractCorpus] at hec
      cases hie : itemsE data with
      | error e => rw [hie] at hec; cases hec
      | ok es =>
        rw [hie] at hec
        have hdata := itemsE_ok hie
        rcases h with h | ⟨es', hes', p, hp, hbad⟩
        · rw [hdata] at h; cases h
        · rw [hdata] at hes'
          injection hes' with hes'
          subst hes'
          obtain ⟨y, hy⟩ := mapME_ok_mem hec p hp
          cases hed : extractDates p.2 with
          | error e => rw [hed] at hy; cases hy
          | ok ds' =>
            rcases hbad with hbad | ⟨ds, hpd, q, hq, hni⟩
            · rw [extractDates_ok_dict hed] at hbad; cases hbad
            · rw [extractDates_ok_news hed hpd q hq] at hni; cases hni

/-! ## Concrete build evaluations -/

theorem buildOne_eval : build_inverted_index tokId dataOne
    = ([("x", ["A-d-0"])], [("A-d-0", "x")]) := by decide

theorem buildColl3_eval : build_inverted_index tokColl dataColl3
    = ([("t", ["A-B-C-0", "A-B-C-0"]), ("w", ["A-Z-0"])],
       [("A-B-C-0", "t x"), ("A-B-C-0", "t y"), ("A-Z-0", "w")]) := by decide

theorem searchTokensOne_eval :
    searchTokens tokId [("A-d-0", "x")] (tokId "x") [] [("x", ["A-d-0"])]
      = (some [("A-d-0", 0)], [("x", ["A-d-0"])]) := by
  simp [searchTokens, ddContains, ddGet, lookupIndex, scoreFold, docTF, lookupDoc,
    addScore, tokId, pyCount, countAux, matchesAt, Real.log_one]

theorem specTF_nonneg (tok : String → List String) (docs : DocList)
    (t id : String) : 0 ≤ specTF tok docs t id := by
  rw [specTF]
  cases lookupDoc docs id with
  | none => exact le_refl 0
  | some doc => positivity

/-! ## Claim theorems -/

/-- C1 (counterexample): with the tokenizer sending the query "qq" to the
token "a" repeated twice, and the two-document index built from `dataRep`
(where "a" occurs in exactly one of the two documents, so its single
`tf * idf` contribution is `log 2`), `search` gives the matching document
the score `log 2 + log 2`: the repeated query token is accumulated once
per repetition, not once per distinct token as the claim states. -/
theorem search_repeated_token_counterexample :
    tokRep "qq" = ["a", "a"] ∧
    build_inverted_index tokRep dataRep
      = ([("a", ["E-d-0"]), ("b", ["E-d-1"])], [("E-d-0", "a"), ("E-d-1", "b")]) ∧
    search tokRep "qq" [("a", ["E-d-0"]), ("b", ["E-d-1"])]
      [("E-d-0", "a"), ("E-d-1", "b")]
      = (some [("E-d-0", Real.log 2 + Real.log 2)], [("a", ["E-d-0"]), ("b", ["E-d-1"])]) ∧
    specTF tokRep [("E-d-0", "a"), ("E-d-1", "b")] "a" "E-d-0" * specIdf 2 1
      = Real.log 2 ∧
    Real.log 2 + Real.log 2 ≠ Real.log 2 := by
  refine ⟨rfl, buildRep_eval, searchRep_eval, ?_, ?_⟩
  · simp [specTF, lookupDoc, specIdf, tokRep, pyCount, countAux, matchesAt]
  · have h2 := Real.log_pos (by norm_num : (1 : ℝ) < 2)
    intro heq
    linarith

/-- C1 (amended): in `search`, the `tf * idf` contribution of a query
token that is a key of the inverted index is accumulated once per
occurrence of the token in the tokenized query: every returned score is
the sum, over the distinct query tokens, of the token's multiplicity in
the tokenized query times that token's per-token contribution. -/
theorem search_score_token_multiplicity (tok : String → List String)
    (q : String) (index : Index) (docs : DocList)
    (r : List (String × ℝ)) (ix : Index)
    (h : search tok q index docs = (some r, ix)) :
    ∀ p ∈ r, p.2 = ∑ t ∈ (tok q).toFinset,
      ((tok q).count t : ℝ) * codeContrib tok index docs t p.1 := by
  obtain ⟨-, acc, -, -, -, hscore, -⟩ := search_some h
  intro p hp
  rw [hscore p hp, Finset.sum_list_map_count]
  refine Finset.sum_congr rfl ?_
  intro t ht
  rw [nsmul_eq_mul]

/-- Witness for C1 (amended) at the repeated-token run of the
counterexample: the score `log 2 + log 2` equals the multiplicity-weighted
sum over the distinct query tokens. -/
theorem search_score_token_multiplicity_witness :
    search tokRep "qq" [("a", ["E-d-0"]), ("b", ["E-d-1"])]
      [("E-d-0", "a"), ("E-d-1", "b")]
      = (some [("E-d-0", Real.log 2 + Real.log 2)], [("a", ["E-d-0"]), ("b", ["E-d-1"])]) ∧
    Real.log 2 + Real.log 2 = ∑ t ∈ (tokRep "qq").toFinset,
      ((tokRep "qq").count t : ℝ)
        * codeContrib tokRep [("a", ["E-d-0"]), ("b", ["E-d-1"])]
            [("E-d-0", "a"), ("E-d-1", "b")] t "E-d-0" :=
  ⟨searchRep_eval,
    search_score_token_multiplicity tokRep "qq" [("a", ["E-d-0"]), ("b", ["E-d-1"])]
      [("E-d-0", "a"), ("E-d-1", "b")] [("E-d-0", Real.log 2 + Real.log 2)]
      [("a", ["E-d-0"]), ("b", ["E-d-1"])] searchRep_eval
      ("E-d-0", Real.log 2 + Real.log 2) (by simp)⟩

/-- C2 (counterexample): on the corpus `dataColl3` two distinct documents
receive the same composite id "A-B-C-0" and both contain the token "t",
so that id occurs twice in the postings list of "t"; `search` then
accumulates the `tf * idf` term twice for that id, returning
`log (3/2) + log (3/2)`, while the claimed formula (one `tf * idf` term
per query token present as a key whose postings contain the id) gives
`log (3/2)`. -/
theorem search_score_formula_counterexample :
    tokColl "t" = ["t"] ∧
    build_inverted_index tokColl dataColl3
      = ([("t", ["A-B-C-0", "A-B-C-0"]), ("w", ["A-Z-0"])],
         [("A-B-C-0", "t x"), ("A-B-C-0", "t y"), ("A-Z-0", "w")]) ∧
    search tokColl "t" [("t", ["A-B-C-0", "A-B-C-0"]), ("w", ["A-Z-0"])]
      [("A-B-C-0", "t x"), ("A-B-C-0", "t y"), ("A-Z-0", "w")]
      = (some [("A-B-C-0", Real.log ((3 : ℝ) / 2) + Real.log ((3 : ℝ) / 2))],
         [("t", ["A-B-C-0", "A-B-C-0"]), ("w", ["A-Z-0"])]) ∧
    specScore tokColl [("t", ["A-B-C-0", "A-B-C-0"]), ("w", ["A-Z-0"])]
      [("A-B-C-0", "t x"), ("A-B-C-0", "t y"), ("A-Z-0", "w")]
      (tokColl "t") "A-B-C-0" = Real.log ((3 : ℝ) / 2) ∧
    Real.log ((3 : ℝ) / 2) + Real.log ((3 : ℝ) / 2) ≠ Real.log ((3 : ℝ) / 2) := by
  refine ⟨rfl, buildColl3_eval, searchColl3_eval, ?_, ?_⟩
  · simp [specScore, lookupIndex, specTF, lookupDoc, specIdf, tokColl,
      show pyCount ("t x") ("t") = 1 from by decide]
  · have h2 := Real.log_pos (by norm_num : (1 : ℝ) < 3 / 2)
    intro heq
    linarith

/-- C2 (amended): for every index and store produced by `build` in which
no two document entries share a composite id, and every query, each
returned score equals the specification's sum, over the query tokens
present as keys in the inverted index whose postings contain the id, of
`tf * idf` with `idf = ln (N / df)` and `tf` the literal substring count
divided by the token count of the document's content. -/
theorem search_score_eq_specScore (tok : String → List String) (data : Corpus)
    (q : String) (r : List (String × ℝ)) (ix : Index)
    (hnd : ((build_inverted_index tok data).2.map Prod.fst).Nodup)
    (h : search tok q (build_inverted_index tok data).1
      (build_inverted_index tok data).2 = (some r, ix)) :
    ∀ p ∈ r, p.2 = specScore tok (build_inverted_index tok data).1
      (build_inverted_index tok data).2 (tok q) p.1 := by
  obtain ⟨-, acc, -, -, -, hscore, -⟩ := search_some h
  intro p hp
  rw [hscore p hp, specScore]
  congr 1
  refine map_congr_on ?_
  intro t ht
  cases hlk : lookupIndex (build_inverted_index tok data).1 t with
  | none => simp [codeContrib, hlk]
  | some ps =>
    obtain ⟨-, hsub, -⟩ := (buildInv_buildState tok data).2.2 t ps hlk
    have hps_nd : ps.Nodup := List.Nodup.sublist hsub hnd
    simp only [codeContrib, hlk]
    by_cases hmem : p.1 ∈ ps
    · rw [List.count_eq_one_of_mem hps_nd hmem, if_pos hmem]
      push_cast
      ring
    · rw [List.count_eq_zero_of_not_mem hmem, if_neg hmem]
      push_cast
      ring

/-- Witness for C2 (amended) on the one-document corpus: the single
returned score 0 equals the specification's formula. -/
theorem search_score_eq_specScore_witness :
    ((build_inverted_index tokId dataOne).2.map Prod.fst).Nodup ∧
    search tokId "x" (build_inverted_index tokId dataOne).1
      (build_inverted_index tokId dataOne).2
      = (some [("A-d-0", 0)], (build_inverted_index tokId dataOne).1) ∧
    (0 : ℝ) = specScore tokId (build_inverted_index tokId dataOne).1
      (build_inverted_index tokId dataOne).2 (tokId "x") "A-d-0" := by
  have hs : search tokId "x" (build_inverted_index tokId dataOne).1
      (build_inverted_index tokId dataOne).2
      = (some [("A-d-0", 0)], (build_inverted_index tokId dataOne).1) := by
    rw [buildOne_eval]
    exact searchOne_eval
  refine ⟨by rw [buildOne_eval]; decide, hs, ?_⟩
  exact search_score_eq_specScore tokId dataOne "x" [("A-d-0", 0)]
    (build_inverted_index tokId dataOne).1 (by rw [buildOne_eval]; decide) hs
    ("A-d-0", 0) (by simp)

/-- C3: deduplication is global across the whole corpus: the document
store produced by `build_inverted_index` never maps two distinct entries
to byte-identical content; every content occurring anywhere in the corpus
(even repeated under different entities or dates) gets exactly one store
entry; and each content contributes exactly one set of postings entries:
every token that is a key of the inverted index has as postings precisely
the ids of the store entries whose content tokenizes to contain it — one
per store entry, hence one per distinct content — while a token that is
no key occurs in no stored content's tokenization, so a skipped
byte-identical duplicate contributes no postings of its own. -/
theorem build_dedup_global (tok : String → List String) (data : Corpus) :
    (((build_inverted_index tok data).2).map Prod.snd).Nodup ∧
    (∀ c ∈ corpusContents data,
      (((build_inverted_index tok data).2).map Prod.snd).count c = 1) ∧
    (∀ t ps, lookupIndex (build_inverted_index tok data).1 t = some ps →
      ps = (((build_inverted_index tok data).2).filter
        (fun d => decide (t ∈ tok d.2))).map Prod.fst) ∧
    (∀ t, lookupIndex (build_inverted_index tok data).1 t = none →
      ∀ d ∈ (build_inverted_index tok data).2, t ∉ tok d.2) := by
  obtain ⟨hchar_some, hchar_none⟩ := indexChar_buildState tok data
  refine ⟨(buildInv_buildState tok data).2.1, ?_, hchar_some, hchar_none⟩
  intro c hc
  exact List.count_eq_one_of_mem (buildInv_buildState tok data).2.1
    (mem_buildState_contents tok data c hc)

/-- Witness for C3 on the corpus with the same content "x" under one
entity and date twice: the store keeps exactly one entry for it, and the
token "x" receives exactly one postings entry — the id of that single
store entry — not one per duplicate. -/
theorem build_dedup_global_witness :
    "x" ∈ corpusContents dataDup ∧
    (((build_inverted_index tokId dataDup).2).map Prod.snd).count "x" = 1 ∧
    lookupIndex (build_inverted_index tokId dataDup).1 "x" = some ["A-d-0"] ∧
    ["A-d-0"] = (((build_inverted_index tokId dataDup).2).filter
      (fun d => decide ("x" ∈ tokId d.2))).map Prod.fst :=
  ⟨by decide, (build_dedup_global tokId dataDup).2.1 "x" (by decide),
    by decide,
    (build_dedup_global tokId dataDup).2.2.1 "x" ["A-d-0"] (by decide)⟩

/-- C4: a successful `search` call returns the accumulated `(id, score)`
pairs in full (a permutation of the accumulator, no truncation), sorted by
descending score, with ties between equal scores kept in the accumulator's
insertion (discovery) order. -/
theorem search_result_sorted_stable_full (tok : String → List String)
    (q : String) (index : Index) (docs : DocList)
    (r : List (String × ℝ)) (ix : Index) (acc : List (String × ℝ))
    (h : search tok q index docs = (some r, ix))
    (hacc : (searchTokens tok docs (tok q) [] index).1 = some acc) :
    r.Pairwise (fun a b => b.2 ≤ a.2) ∧ r.Perm acc ∧
    ∀ a b, [a, b].Sublist acc → a.2 = b.2 → [a, b].Sublist r := by
  obtain ⟨-, acc', hacc', hr, -, -, -⟩ := search_some h
  rw [hacc'] at hacc
  injection hacc with hacc
  subst hacc
  subst hr
  exact ⟨sortDesc_sorted _, sortDesc_perm _,
    fun a b hsub heq => sortDesc_stable hsub heq⟩

/-- Witness for C4 on the one-document run: the result is a permutation
of the accumulator. -/
theorem search_result_sorted_stable_full_witness :
    search tokId "x" [("x", ["A-d-0"])] [("A-d-0", "x")]
      = (some [("A-d-0", 0)], [("x", ["A-d-0"])]) ∧
    (searchTokens tokId [("A-d-0", "x")] (tokId "x") [] [("x", ["A-d-0"])]).1
      = some [("A-d-0", 0)] ∧
    List.Perm [(("A-d-0" : String), (0 : ℝ))] [(("A-d-0" : String), (0 : ℝ))] :=
  ⟨searchOne_eval, by rw [searchTokensOne_eval],
    (search_result_sorted_stable_full tokId "x" [("x", ["A-d-0"])] [("A-d-0", "x")]
      [("A-d-0", 0)] [("x", ["A-d-0"])] [("A-d-0", 0)] searchOne_eval
      (by rw [searchTokensOne_eval])).2.1⟩

/-- C5: on an index and store produced by `build_inverted_index`, every
score a successful `search` returns is non-negative: postings lists are
nonempty subsequences of the stored document ids, so `1 ≤ N / df` and
`idf = ln (N / df) ≥ 0`, while `tf ≥ 0` always. -/
theorem search_scores_nonneg (tok : String → List String) (data : Corpus)
    (q : String) (r : List (String × ℝ)) (ix : Index)
    (h : search tok q (build_inverted_index tok data).1
      (build_inverted_index tok data).2 = (some r, ix)) :
    ∀ p ∈ r, 0 ≤ p.2 := by
  obtain ⟨-, acc, -, -, -, hscore, hcond⟩ := search_some h
  intro p hp
  rw [hscore p hp]
  refine List.sum_nonneg ?_
  intro x hx
  obtain ⟨t, ht, rfl⟩ := List.mem_map.mp hx
  cases hlk : lookupIndex (build_inverted_index tok data).1 t with
  | none => simp [codeContrib, hlk]
  | some ps =>
    obtain ⟨hne, hdocs_ne⟩ := (hcond t ht ps hlk)
    obtain ⟨-, hsub, -⟩ := (buildInv_buildState tok data).2.2 t ps hlk
    have hdf_pos : 0 < ps.length := List.length_pos.mpr hne
    have hdf_le : ps.length ≤ (build_inverted_index tok data).2.length := by
      have hlen := hsub.length_le
      simpa using hlen
    simp only [codeContrib, hlk]
    refine mul_nonneg (by positivity) (mul_nonneg (specTF_nonneg _ _ _ _) ?_)
    rw [specIdf]
    refine Real.log_nonneg ?_
    rw [one_le_div (by exact_mod_cast hdf_pos)]
    exact_mod_cast hdf_le

/-- Witness for C5 on the one-document run: the returned score 0 is
non-negative. -/
theorem search_scores_nonneg_witness :
    search tokId "x" (build_inverted_index tokId dataOne).1
      (build_inverted_index tokId dataOne).2
      = (some [("A-d-0", 0)], (build_inverted_index tokId dataOne).1) ∧
    (0 : ℝ) ≤ (0 : ℝ) := by
  have hs : search tokId "x" (build_inverted_index tokId dataOne).1
      (build_inverted_index tokId dataOne).2
      = (some [("A-d-0", 0)], (build_inverted_index tokId dataOne).1) := by
    rw [buildOne_eval]
    exact searchOne_eval
  exact ⟨hs, search_scores_nonneg tokId dataOne "x" [("A-d-0", 0)]
    (build_inverted_index tokId dataOne).1 hs ("A-d-0", 0) (by simp)⟩

/-- C6: a query tokenizing to zero tokens, or only to tokens absent as
keys of the inverted index, makes `search` return an empty result without
error, and `search` against an empty index returns an empty result for
every query. -/
theorem search_empty_or_no_match (tok : String → List String) (q : String)
    (index : Index) (docs : DocList) :
    (tok q = [] → search tok q index docs = (some [], index)) ∧
    ((∀ t ∈ tok q, lookupIndex index t = none) →
      search tok q index docs = (some [], index)) ∧
    (index = [] → search tok q index docs = (some [], index)) := by
  refine ⟨?_, search_of_no_match tok q index docs, ?_⟩
  · intro hq
    refine search_of_no_match tok q index docs ?_
    intro t ht
    rw [hq] at ht
    cases ht
  · intro hix
    subst hix
    exact search_of_no_match tok q [] docs (fun t _ => rfl)

/-- Witness for C6: a query against the empty index returns the empty
result sequence. -/
theorem search_empty_or_no_match_witness :
    search tokId "zzz" [] [] = (some [], []) :=
  (search_empty_or_no_match tokId "zzz" [] []).2.2 rfl

/-- C7: `build` on a malformed corpus structure (a non-mapping where the
entity mapping or an entity's date mapping is expected, or a non-iterable
where a date's news sequence is expected) fails with the `LoadError` of
the specification's taxonomy — in the Python source an uncaught built-in
exception — aborting index construction with no partial result. -/
theorem build_malformed_corpus_fails (tok : String → List String)
    (data : PyVal) (h : Malformed data) :
    buildFromRaw tok data = .error .malformedCorpus :=
  buildFromRaw_malformed tok data h

/-- Witness for C7: building from a bare number aborts with the error. -/
theorem build_malformed_corpus_fails_witness :
    buildFromRaw tokId (PyVal.pnum 0) = .error .malformedCorpus :=
  build_malformed_corpus_fails tokId (PyVal.pnum 0) (Or.inl rfl)

/-- C8: on the corpus with the two documents "cats are great" and
"dogs are great", a query tokenizing to the single token "great" (present
in both documents' tokenizations) returns both documents, each with score
0, because `df = 2` and `N = 2` give `idf = ln 1 = 0`. -/
theorem search_common_term_zero_score (tok : String → List String)
    (hq : tok "great" = ["great"])
    (h0 : "great" ∈ tok "cats are great")
    (h1 : "great" ∈ tok "dogs are great") :
    search tok "great" (build_inverted_index tok dataGreat).1
      (build_inverted_index tok dataGreat).2
      = (some [("A-2020-01-01-0", 0), ("A-2020-01-01-1", 0)],
         (build_inverted_index tok dataGreat).1) :=
  searchGreat_eval tok hq h0 h1

/-- Witness for C8 with a concrete tokenizer satisfying the scenario's
tokenization assumptions. -/
theorem search_common_term_zero_score_witness :
    search tokGreat "great" (build_inverted_index tokGreat dataGreat).1
      (build_inverted_index tokGreat dataGreat).2
      = (some [("A-2020-01-01-0", 0), ("A-2020-01-01-1", 0)],
         (build_inverted_index tokGreat dataGreat).1) :=
  search_common_term_zero_score tokGreat rfl (by simp [tokGreat])
    (by simp [tokGreat])

/-- C9: `search` never mutates the inverted index: although the index is
a `defaultdict` whose read accesses insert missing keys, every access is
guarded by a membership test, so the index after any `search` call equals
the index before it (the document list is read-only in the embedding, as
`search` performs no write on it in the source). -/
theorem search_read_only_index (tok : String → List String) (q : String)
    (index : Index) (docs : DocList) :
    (search tok q index docs).2 = index := by
  rw [search]
  cases hst : searchTokens tok docs (tok q) [] index with
  | mk o ix0 =>
    have h := searchTokens_snd tok docs (tok q) [] index
    rw [hst] at h
    cases o <;> simpa using h

/-- C10 (counterexample): on the corpus `dataColl` the entity "A-B" with
date "C" and the entity "A" with date "B-C" both produce the composite id
"A-B-C-0" (the "-"-joined id string does not separate its parts
unambiguously), the two documents have distinct contents so both are
stored, and the token "x" is a key whose postings contain that id — yet
the document list holds two entries with that id, not exactly one. -/
theorem build_id_collision_counterexample :
    lookupIndex (build_inverted_index tokId dataColl).1 "x" = some ["A-B-C-0"] ∧
    "A-B-C-0" ∈ (["A-B-C-0"] : List String) ∧
    ((build_inverted_index tokId dataColl).2.map Prod.fst).count "A-B-C-0" = 2 ∧
    ¬ ((build_inverted_index tokId dataColl).2.map Prod.fst).count "A-B-C-0" = 1 := by
  refine ⟨by decide, by decide, by decide, by decide⟩

/-- C10 (amended): when no two entries of the document list produced by
`build_inverted_index` share a composite id, `search` is total on it: for
each token that is a key of the index and each id in its postings list,
exactly one entry with that id exists in the document list (the linear
lookup succeeds and is unambiguous), and tokenizing that document's
content yields at least one token, so the `tf` division never divides by
zero. -/
theorem build_postings_lookup_total (tok : String → List String)
    (data : Corpus) (t : String) (ps : List String) (id : String)
    (hnd : ((build_inverted_index tok data).2.map Prod.fst).Nodup)
    (hlk : lookupIndex (build_inverted_index tok data).1 t = some ps)
    (hid : id ∈ ps) :
    ((build_inverted_index tok data).2.map Prod.fst).count id = 1 ∧
    ∃ c, lookupDoc (build_inverted_index tok data).2 id = some (id, c) ∧
      (tok c).length ≠ 0 := by
  obtain ⟨-, -, hsound⟩ := (buildInv_buildState tok data).2.2 t ps hlk
  obtain ⟨c, hcmem, htc⟩ := hsound id hid
  have hidmem : id ∈ (build_inverted_index tok data).2.map Prod.fst :=
    List.mem_map_of_mem Prod.fst hcmem
  refine ⟨List.count_eq_one_of_mem hnd hidmem, c, lookupDoc_mem hnd hcmem, ?_⟩
  intro hl
  exact List.ne_nil_of_mem htc (List.length_eq_zero.mp hl)

/-- Witness for C10 (amended) on the one-document corpus: the id in the
postings of "x" has exactly one store entry. -/
theorem build_postings_lookup_total_witness :
    ((build_inverted_index tokId dataOne).2.map Prod.fst).Nodup ∧
    lookupIndex (build_inverted_index tokId dataOne).1 "x" = some ["A-d-0"] ∧
    "A-d-0" ∈ (["A-d-0"] : List String) ∧
    ((build_inverted_index tokId dataOne).2.map Prod.fst).count "A-d-0" = 1 :=
  ⟨by decide, by decide, by decide,
    (build_postings_lookup_total tokId dataOne "x" ["A-d-0"] "A-d-0"
      (by decide) (by decide) (by decide)).1⟩
